import Mathlib

set_option maxHeartbeats 1000000
set_option maxRecDepth 8000

/-!
Verification of the SpeechCore live-transcription client pipeline, a shallow
embedding of `SpeechCore_Demo/app` (voice-recognition page): audio resampling,
WAV encoding, silence-filtered chunking, the sequential WebSocket transport
queue, the transcript aggregator, and the recording lifecycle.

Audio samples are modelled as rationals (the source uses float32 samples),
byte buffers as lists of naturals, and the event-driven client as an explicit
state machine stepped by events (captured frame, flush tick, send-completion,
stop).
-/

namespace SpeechCore

/-- Target sample rate in Hz demanded by the engines (`TARGET_SR = 16000`). -/
def TARGET_SR : ℕ := 16000

/-- RMS silence threshold (`SILENCE = 0.004`). -/
def SILENCE : ℚ := 4 / 1000

/-- Linear-interpolation resampler (`resample`): if the source rate equals the
target rate the input is returned unchanged; otherwise each output sample `i`
is interpolated between the two nearest source samples at position
`i * ratio`, `ratio = srcSR / TARGET_SR`.  Out-of-range source reads yield `0`
(the `?? 0` defaults in the source); the output length is
`Math.round (length / ratio)`. -/
def resample (f32 : List ℚ) (srcSR : ℕ) : List ℚ :=
  if srcSR = TARGET_SR then f32
  else
    let ratio : ℚ := (srcSR : ℚ) / (TARGET_SR : ℚ)
    let outLen : ℕ := (round ((f32.length : ℚ) / ratio)).toNat
    (List.range outLen).map fun (i : ℕ) =>
      let pos : ℚ := (i : ℚ) * ratio
      let idx : ℕ := (⌊pos⌋).toNat
      let frac : ℚ := pos - ⌊pos⌋
      f32.getD idx 0 + frac * (f32.getD (idx + 1) 0 - f32.getD idx 0)

/-- JavaScript number-to-integer conversion (truncation toward zero), as
performed by `DataView.setInt16` on its value argument. -/
def jsTrunc (x : ℚ) : ℤ :=
  if 0 ≤ x then ⌊x⌋ else ⌈x⌉

/-- The per-sample conversion of `toWav`: clamp to `[-1, 1]`, then scale a
negative sample by `0x8000 = 32768` and a non-negative one by
`0x7fff = 32767`. -/
def sampleToInt16 (x : ℚ) : ℤ :=
  let c : ℚ := max (-1) (min 1 x)
  if c < 0 then jsTrunc (c * 32768) else jsTrunc (c * 32767)

/-- Little-endian 16-bit encoding of a (already reduced) natural. -/
def u16le (x : ℕ) : List ℕ :=
  [x % 256, x / 256 % 256]

/-- Little-endian 32-bit encoding of a natural. -/
def u32le (x : ℕ) : List ℕ :=
  [x % 256, x / 256 % 256, x / 256 ^ 2 % 256, x / 256 ^ 3 % 256]

/-- ASCII bytes of a header tag string. -/
def strBytes (s : String) : List ℕ :=
  s.toList.map Char.toNat

/-- Two's-complement little-endian encoding of a signed 16-bit value. -/
def int16Bytes (v : ℤ) : List ℕ :=
  u16le ((v % 65536).toNat)

/-- WAV serializer (`toWav`): a 44-byte RIFF/WAVE header (PCM, mono, 16-bit,
sample rate `sr`) followed by the samples encoded as little-endian signed
16-bit integers, 2 bytes per sample. -/
def toWav (f32 : List ℚ) (sr : ℕ) : List ℕ :=
  let n := f32.length
  strBytes ("RIFF") ++ u32le (36 + n * 2) ++ strBytes ("WAVE") ++ strBytes ("fmt ") ++
  u32le 16 ++ u16le 1 ++ u16le 1 ++
  u32le sr ++ u32le (sr * 2) ++
  u16le 2 ++ u16le 16 ++
  strBytes ("data") ++ u32le (n * 2) ++
  f32.flatMap (fun x => int16Bytes (sampleToInt16 x))

/-- Sum of squared samples (the `reduce` inside the RMS computation). -/
def sumSq (xs : List ℚ) : ℚ :=
  (xs.map (fun v => v * v)).sum

/-- Squared RMS energy of a buffer: `sumSq / length`. -/
def rmsSq (xs : List ℚ) : ℚ :=
  sumSq xs / (xs.length : ℚ)

/-- The silence test of `flushChunk`: `rms < SILENCE`, decided on rationals as
`rmsSq < SILENCE ^ 2` (equivalent to the source's `sqrt (sumSq / n) < 0.004`;
see `isSilence_iff_sqrt`). -/
def isSilence (xs : List ℚ) : Bool :=
  decide (rmsSq xs < SILENCE ^ 2)

/-- Network-log tags of the client (`LogTag`). -/
inductive LogTag where
  | SEND
  | RECV
  | DROP
  | WARN
  | ERR
deriving DecidableEq, Repr

/-- The client log keeps the last 199 lines and appends the new
one (`prev.slice(-199)` followed by the new entry). -/
def addLog (t : LogTag) (logs : List LogTag) : List LogTag :=
  logs.drop (logs.length - 199) ++ [t]

/-- Capture-side chunker state: the accumulated PCM frames and the device's
native sample rate. -/
structure Chunker where
  pcmBuf : List (List ℚ)
  nativeSR : ℕ
deriving DecidableEq

/-- Flush (`flushChunk`): if no frame has accumulated, drop (log tag `DROP`);
otherwise concatenate the frames, clear the buffer, drop the merged buffer
when its RMS is below the silence threshold (`DROP`), and otherwise emit
exactly one WAV-encoded chunk resampled to the target rate (`SEND`).
Returns the updated chunker, the emitted chunk (if any) and the log tag. -/
def flushChunk (c : Chunker) : Chunker × Option (List ℕ) × LogTag :=
  if c.pcmBuf = [] then (c, none, .DROP)
  else
    let merged := c.pcmBuf.flatten
    let c' : Chunker := { c with pcmBuf := [] }
    if isSilence merged then (c', none, .DROP)
    else (c', some (toWav (resample merged c.nativeSR) TARGET_SR), .SEND)

/-- JavaScript `String.trim`: strip leading and trailing whitespace. -/
def jsTrim (s : List Char) : List Char :=
  (((s.dropWhile Char.isWhitespace).reverse).dropWhile Char.isWhitespace).reverse

/-- Whether the last character is a space (the source's check that the
transcript ends with a single space character). -/
def endsWithSpace (s : List Char) : Bool :=
  decide (s.getLast? = some ' ')

/-- Whether the last character is any whitespace character (used to phrase the
spec's append rule). -/
def lastIsWhitespace (s : List Char) : Bool :=
  match s.getLast? with
  | some c => c.isWhitespace
  | none => false

/-- The aggregator's result handler: trim the returned text; if the trimmed
text is non-empty, append it to the transcript, preceded by a single space
when the transcript is non-empty and does not already end with `" "`; if the
trimmed text is empty the transcript is unchanged. -/
def appendResult (prev raw : List Char) : List Char :=
  let txt := jsTrim raw
  if txt = [] then prev
  else prev ++ (if prev ≠ [] ∧ endsWithSpace prev = false then [' '] else []) ++ txt

/-- Terminal outcome of one chunk's WebSocket exchange: a `result` message
carrying `transcription_complete`, a server `{type:"error"}` message, or a
transport-level failure (socket error / constructor throw). -/
inductive Outcome where
  | result (raw : List Char)
  | errorMsg
  | wsfail
deriving DecidableEq

/-- Log tag produced by the message handler for each outcome: `RECV` for a
non-empty result, `WARN` for an empty result, `ERR` for errors. -/
def outcomeTag (o : Outcome) : LogTag :=
  match o with
  | .result raw => if jsTrim raw = [] then .WARN else .RECV
  | .errorMsg => .ERR
  | .wsfail => .ERR

/-- Client transport-queue state: monotone chunk-id counter (`nextId`), FIFO
of pending chunk ids (`wsQueueRef`), the busy flag (`wsBusyRef`), the id of
the in-flight chunk (if any), the dispatch history in send order, the running
transcript and the network log. -/
structure TQ where
  nextId : ℕ
  pending : List ℕ
  busy : Bool
  inFlight : Option ℕ
  sentHistory : List ℕ
  transcript : List Char
  logs : List LogTag
deriving DecidableEq

/-- Initial transport state (empty queue, idle, empty transcript). -/
def TQ.init : TQ :=
  ⟨0, [], false, none, [], [], []⟩

/-- Dispatch (`processQueue`): when not busy and the queue is non-empty, shift the head
chunk, set the busy flag and send it (recorded in `sentHistory`). -/
def TQ.dispatch (s : TQ) : TQ :=
  if s.busy then s
  else
    match s.pending with
    | [] => s
    | c :: rest =>
      { s with pending := rest, busy := true, inFlight := some c,
               sentHistory := s.sentHistory ++ [c] }

/-- Enqueue a freshly created chunk (`wsQueueRef.current.push` followed by
`processQueue()`): the chunk receives the next creation id. -/
def TQ.enqueue (s : TQ) : TQ :=
  TQ.dispatch { s with nextId := s.nextId + 1, pending := s.pending ++ [s.nextId] }

/-- Transcript effect of a terminal outcome: only a `result` message touches
the transcript (through `appendResult`); errors leave it unchanged. -/
def applyOutcome (o : Outcome) (t : List Char) : List Char :=
  match o with
  | .result raw => appendResult t raw
  | .errorMsg => t
  | .wsfail => t

/-- Completion of the in-flight send (terminal message handler followed by
`ws.onclose`): record the outcome's log line and transcript effect, clear the
busy flag and the in-flight chunk, and immediately call `processQueue` again.
No-op when no send is in flight. -/
def TQ.complete (o : Outcome) (s : TQ) : TQ :=
  if s.busy then
    TQ.dispatch { s with busy := false, inFlight := none,
                         transcript := applyOutcome o s.transcript,
                         logs := addLog (outcomeTag o) s.logs }
  else s

/-- Whole-client recording state: the capture flag (`runningRef`), whether the
periodic flush timer is installed (`chunkTmrRef`), the chunker, the transport
queue, and whether capture resources (processor, tracks, audio context) have
been released. -/
structure RecState where
  running : Bool
  timerOn : Bool
  chunker : Chunker
  tq : TQ
  released : Bool
deriving DecidableEq

/-- Client events: a captured audio frame (`onaudioprocess`), a flush-timer
tick, completion of the in-flight send, and `stopRecording`. -/
inductive REv where
  | frame (f : List ℚ)
  | tick
  | complete (o : Outcome)
  | stop

/-- Run `flushChunk` on the current buffer, record its log tag, and enqueue
the emitted chunk (if any) on the transport queue. -/
def flushAndEnqueue (s : RecState) : RecState :=
  match flushChunk s.chunker with
  | (c', none, tag) =>
    { s with chunker := c', tq := { s.tq with logs := addLog tag s.tq.logs } }
  | (c', some _, tag) =>
    { s with chunker := c',
             tq := TQ.enqueue { s.tq with logs := addLog tag s.tq.logs } }

/-- One step of the client state machine.  A frame is buffered only while
`running`; a tick flushes only while the timer is installed; completion feeds
the transport queue; `stopRecording` clears the running flag and the timer,
performs one final flush through the same path as a tick, and releases the
capture resources unconditionally. -/
def step (s : RecState) : REv → RecState
  | .frame f =>
    if s.running then
      { s with chunker := { s.chunker with pcmBuf := s.chunker.pcmBuf ++ [f] } }
    else s
  | .tick => if s.timerOn then flushAndEnqueue s else s
  | .complete o => { s with tq := TQ.complete o s.tq }
  | .stop =>
    let s1 := { s with running := false, timerOn := false }
    let s2 := flushAndEnqueue s1
    { s2 with released := true }

/-- State right after `startRecording` succeeded: capture running, flush timer
installed, empty buffer at the device's native rate, idle transport queue. -/
def RecState.init (sr : ℕ) : RecState :=
  { running := true, timerOn := true, chunker := ⟨[], sr⟩,
    tq := TQ.init, released := false }

/-- Run the client from `startRecording` through a list of events. -/
def run (sr : ℕ) (evs : List REv) : RecState :=
  evs.foldl step (RecState.init sr)

/-- The three transcription engines. -/
inductive Engine where
  | whisper
  | vosk
  | gladia
deriving DecidableEq

/-- Per-engine speaker-count floor (`NB_MIN`): 1 for the local engines, 0 for
the cloud engine (auto-detect). -/
def NB_MIN : Engine → ℕ
  | .vosk => 1
  | .whisper => 1
  | .gladia => 0

/-- Configuration state of the page: selected engine and speaker count. -/
structure ConfigState where
  engine : Engine
  nbLocuteurs : ℕ
deriving DecidableEq

/-- Initial configuration (`useState<Engine>("whisper")`,
`useState<1 | 2>(2)`). -/
def ConfigState.init : ConfigState :=
  ⟨.whisper, 2⟩

/-- The effect run when the engine changes: if the engine is the cloud engine
and the speaker count is below 1, raise it to 1. -/
def adjustGladia (s : ConfigState) : ConfigState :=
  if s.engine = Engine.gladia ∧ s.nbLocuteurs < 1 then { s with nbLocuteurs := 1 }
  else s

/-- Configuration events: selecting an engine (followed by the adjustment
effect), and the two speaker-count buttons (the 1-speaker button is disabled
while the cloud engine is selected). -/
inductive CEv where
  | selectEngine (e : Engine)
  | selectNb1
  | selectNb2

/-- One configuration step. -/
def cstep (s : ConfigState) : CEv → ConfigState
  | .selectEngine e => adjustGladia { s with engine := e }
  | .selectNb1 => if s.engine = Engine.gladia then s else { s with nbLocuteurs := 1 }
  | .selectNb2 => { s with nbLocuteurs := 2 }

/-- Run the configuration page from its initial state. -/
def crun (evs : List CEv) : ConfigState :=
  evs.foldl cstep ConfigState.init

/-- A session payload as built by `buildPayload`: base fields `audio`,
`engine`, `nb_locuteurs`, plus engine-specific fields. -/
structure Payload where
  audio : String
  engine : Engine
  nb_locuteurs : ℕ
  modele_vosk : Option String
  config_whisper : Option String
  methode_bruit : Option String
  type_environnement : Option String
deriving DecidableEq

/-- Payload builder (`buildPayload`): the base fields for every engine, `modele_vosk`,
`methode_bruit`, `type_environnement` for vosk, `config_whisper`,
`methode_bruit`, `type_environnement` for whisper, nothing extra for
gladia. -/
def buildPayload (s : ConfigState) (b64 : String) : Payload :=
  match s.engine with
  | .vosk =>
    ⟨b64, .vosk, s.nbLocuteurs, some ("grand"), none, some ("false"), some ("2")⟩
  | .whisper =>
    ⟨b64, .whisper, s.nbLocuteurs, none, some ("cpu_rapide"), some ("false"), some ("2")⟩
  | .gladia =>
    ⟨b64, .gladia, s.nbLocuteurs, none, none, none, none⟩

/-- Transport-queue invariant: the dispatch history followed by the pending
queue is exactly the chunk-creation order `0, 1, …, nextId - 1`, the busy
flag is set exactly while a chunk is in flight, and the in-flight chunk has
already been recorded in the dispatch history. -/
def TQ.Inv (s : TQ) : Prop :=
  s.sentHistory ++ s.pending = List.range s.nextId ∧
  s.busy = s.inFlight.isSome ∧
  ∀ c, s.inFlight = some c → c ∈ s.sentHistory

/-! ## Helper lemmas -/

/-- Evaluation of `Math.round (n / 2)` on a natural input, as a natural. -/
lemma round_half_toNat (n : ℕ) : (round ((n : ℚ) / 2)).toNat = (n + 1) / 2 := by
  rw [round_eq]
  rcases Nat.even_or_odd n with ⟨k, hk⟩ | ⟨k, hk⟩
  · subst hk
    have h1 : ((k + k : ℕ) : ℚ) / 2 + 1 / 2 = ((k : ℤ) : ℚ) + 1 / 2 := by
      push_cast; ring
    have h2 : ⌊((k : ℤ) : ℚ) + 1 / 2⌋ = k := by
      rw [Int.floor_eq_iff]
      push_cast
      constructor <;> linarith
    rw [h1, h2]
    omega
  · subst hk
    have h1 : ((2 * k + 1 : ℕ) : ℚ) / 2 + 1 / 2 = ((k + 1 : ℤ) : ℚ) := by
      push_cast; ring
    rw [h1, Int.floor_intCast]
    omega

/-- Truncation toward zero of a non-negative value is the floor. -/
lemma jsTrunc_of_nonneg {x : ℚ} (h : 0 ≤ x) : jsTrunc x = ⌊x⌋ := by
  unfold jsTrunc
  rw [if_pos h]

/-- Truncation toward zero of a negative value is the ceiling. -/
lemma jsTrunc_of_neg {x : ℚ} (h : x < 0) : jsTrunc x = ⌈x⌉ := by
  unfold jsTrunc
  rw [if_neg (not_le.mpr h)]

/-- Length of the resampled buffer when the rate actually changes. -/
lemma resample_length (f32 : List ℚ) (srcSR : ℕ) (h : srcSR ≠ TARGET_SR) :
    (resample f32 srcSR).length =
      (round ((f32.length : ℚ) / ((srcSR : ℚ) / (TARGET_SR : ℚ)))).toNat := by
  simp only [resample, if_neg h, List.length_map, List.length_range]

/-- Resampling from twice the target rate yields `(n + 1) / 2` samples. -/
lemma resample_double_length (f32 : List ℚ) :
    (resample f32 (2 * TARGET_SR)).length = (f32.length + 1) / 2 := by
  rw [resample_length f32 (2 * TARGET_SR) (by decide)]
  have h2 : ((2 * TARGET_SR : ℕ) : ℚ) / ((TARGET_SR : ℕ) : ℚ) = 2 := by
    norm_num [TARGET_SR]
  rw [h2, round_half_toNat]

/-- The encoded sample section is 2 bytes per sample. -/
lemma sampleBytes_length (l : List ℚ) :
    (l.flatMap (fun x => int16Bytes (sampleToInt16 x))).length = 2 * l.length := by
  induction l with
  | nil => rfl
  | cons a l ih =>
    rw [List.flatMap_cons, List.length_append, ih]
    have h : (int16Bytes (sampleToInt16 a)).length = 2 := rfl
    rw [h, List.length_cons]
    omega

/-- Total byte length of the WAV container: 44-byte header plus 2 bytes per
sample. -/
lemma toWav_length (f32 : List ℚ) (sr : ℕ) :
    (toWav f32 sr).length = 44 + 2 * f32.length := by
  simp only [toWav, List.length_append, sampleBytes_length, u32le, u16le,
    List.length_cons, List.length_nil]
  norm_num [strBytes]

/-- Bounds on the clamped, scaled, truncated sample value. -/
lemma sampleToInt16_bounds (x : ℚ) :
    -32768 ≤ sampleToInt16 x ∧ sampleToInt16 x ≤ 32767 := by
  unfold sampleToInt16
  set c : ℚ := max (-1) (min 1 x) with hc
  have hc1 : (-1 : ℚ) ≤ c := le_max_left _ _
  have hc2 : c ≤ 1 := max_le (by norm_num) (min_le_left _ _)
  by_cases hneg : c < 0
  · rw [if_pos hneg, jsTrunc_of_neg (by nlinarith : c * 32768 < 0)]
    constructor
    · have h1 : ((-32768 : ℤ) : ℚ) ≤ c * 32768 := by push_cast; nlinarith
      calc (-32768 : ℤ) = ⌈((-32768 : ℤ) : ℚ)⌉ := (Int.ceil_intCast _).symm
        _ ≤ ⌈c * 32768⌉ := Int.ceil_le_ceil h1
    · have h0 : ⌈c * 32768⌉ ≤ 0 := Int.ceil_le.2 (by push_cast; nlinarith)
      omega
  · push_neg at hneg
    rw [if_neg (not_lt.mpr hneg), jsTrunc_of_nonneg (by nlinarith : (0 : ℚ) ≤ c * 32767)]
    constructor
    · have h0 : (0 : ℤ) ≤ ⌊c * 32767⌋ := Int.floor_nonneg.2 (by nlinarith)
      omega
    · have h1 : c * 32767 ≤ ((32767 : ℤ) : ℚ) := by push_cast; nlinarith
      calc ⌊c * 32767⌋ ≤ ⌊((32767 : ℤ) : ℚ)⌋ := Int.floor_le_floor h1
        _ = 32767 := Int.floor_intCast _

/-- The silence test of the source (`sqrt (sumSq / n) < 0.004`) agrees with
the rational comparison used in the embedding. -/
lemma isSilence_iff_sqrt (xs : List ℚ) :
    isSilence xs = true ↔
      Real.sqrt ((sumSq xs : ℝ) / (xs.length : ℝ)) < 4 / 1000 := by
  rw [Real.sqrt_lt' (by norm_num : (0 : ℝ) < 4 / 1000)]
  simp only [isSilence, rmsSq, SILENCE, decide_eq_true_eq]
  have hcast : (sumSq xs : ℝ) / (xs.length : ℝ) = ((sumSq xs / xs.length : ℚ) : ℝ) := by
    push_cast; ring
  rw [hcast, show ((4 : ℝ) / 1000) ^ 2 = (((4 / 1000 : ℚ) ^ 2 : ℚ) : ℝ) by norm_num]
  exact ⟨fun h => by exact_mod_cast h, fun h => by exact_mod_cast h⟩

/-- The head surviving `dropWhile p` does not satisfy `p`. -/
lemma dropWhile_head_not {α : Type} (p : α → Bool) (l : List α) {a : α}
    (h : (l.dropWhile p).head? = some a) : p a = false := by
  induction l with
  | nil => simp [List.dropWhile] at h
  | cons b l ih =>
    rw [List.dropWhile_cons] at h
    by_cases hb : p b
    · rw [if_pos hb] at h
      exact ih h
    · rw [if_neg hb] at h
      simp only [List.head?_cons, Option.some.injEq] at h
      subst h
      simpa using hb

/-- The last character of a non-trivial trim result is not whitespace. -/
lemma jsTrim_getLast_not_ws {s : List Char} {a : Char}
    (h : (jsTrim s).getLast? = some a) : a.isWhitespace = false := by
  unfold jsTrim at h
  rw [List.getLast?_reverse] at h
  exact dropWhile_head_not _ _ h

/-- A non-empty trim result does not end in whitespace. -/
lemma jsTrim_last_not_ws (s : List Char) (_h : jsTrim s ≠ []) :
    lastIsWhitespace (jsTrim s) = false := by
  unfold lastIsWhitespace
  match hl : (jsTrim s).getLast? with
  | none => rfl
  | some a => exact jsTrim_getLast_not_ws hl

/-- The whitespace status of the last character only depends on the second
list when it is non-empty. -/
lemma lastIsWhitespace_append (l m : List Char) (hm : m ≠ []) :
    lastIsWhitespace (l ++ m) = lastIsWhitespace m := by
  unfold lastIsWhitespace
  rw [List.getLast?_append]
  match hl : m.getLast? with
  | none => exact absurd (List.getLast?_eq_none_iff.mp hl) hm
  | some a => rfl

/-- A transcript that does not end in whitespace does not end in a space. -/
lemma endsWithSpace_of_not_ws {t : List Char} (h : lastIsWhitespace t = false) :
    endsWithSpace t = false := by
  unfold lastIsWhitespace at h
  unfold endsWithSpace
  match hl : t.getLast? with
  | none => rfl
  | some c =>
    rw [hl] at h
    rcases eq_or_ne c ' ' with hc | hc
    · subst hc
      simp [Char.isWhitespace] at h
    · simp [hc]

/-- The append rule preserves the invariant that the transcript is empty or
does not end in whitespace. -/
lemma appendResult_last_inv (prev raw : List Char)
    (h : prev = [] ∨ lastIsWhitespace prev = false) :
    appendResult prev raw = [] ∨ lastIsWhitespace (appendResult prev raw) = false := by
  unfold appendResult
  by_cases ht : jsTrim raw = []
  · rw [if_pos ht]
    exact h
  · rw [if_neg ht]
    right
    rw [show prev ++ (if prev ≠ [] ∧ endsWithSpace prev = false then [' '] else []) ++
          jsTrim raw =
        (prev ++ (if prev ≠ [] ∧ endsWithSpace prev = false then [' '] else [])) ++
          jsTrim raw by simp,
      lastIsWhitespace_append _ _ ht]
    exact jsTrim_last_not_ws raw ht

/-- Every transcript reachable by folding results from the empty transcript
is empty or does not end in whitespace. -/
lemma transcript_last_inv (raws : List (List Char)) :
    raws.foldl appendResult [] = [] ∨
      lastIsWhitespace (raws.foldl appendResult []) = false := by
  suffices h : ∀ (rs : List (List Char)) (t : List Char),
      (t = [] ∨ lastIsWhitespace t = false) →
      (rs.foldl appendResult t = [] ∨ lastIsWhitespace (rs.foldl appendResult t) = false) by
    exact h raws [] (Or.inl rfl)
  intro rs
  induction rs with
  | nil => exact fun t ht => ht
  | cons r rs ih =>
    intro t ht
    exact ih _ (appendResult_last_inv t r ht)

/-- Dispatching does not touch the transcript or the log. -/
lemma dispatch_transcript_logs (s : TQ) :
    (TQ.dispatch s).transcript = s.transcript ∧ (TQ.dispatch s).logs = s.logs := by
  unfold TQ.dispatch
  by_cases hb : s.busy
  · rw [if_pos hb]
    exact ⟨rfl, rfl⟩
  · rw [if_neg hb]
    cases s.pending <;> exact ⟨rfl, rfl⟩

/-- The initial transport state satisfies the invariant. -/
lemma inv_init : TQ.Inv TQ.init := by
  refine ⟨?_, rfl, ?_⟩
  · simp [TQ.init]
  · intro c hc
    simp [TQ.init] at hc

/-- Dispatching preserves the transport invariant. -/
lemma inv_dispatch {s : TQ} (h : TQ.Inv s) : TQ.Inv s.dispatch := by
  obtain ⟨h1, h2, h3⟩ := h
  unfold TQ.dispatch
  by_cases hb : s.busy
  · rw [if_pos hb]
    exact ⟨h1, h2, h3⟩
  · rw [if_neg hb]
    cases hp : s.pending with
    | nil => exact ⟨h1, h2, h3⟩
    | cons c rest =>
      refine ⟨?_, rfl, ?_⟩
      · show s.sentHistory ++ [c] ++ rest = List.range s.nextId
        rw [List.append_assoc]
        rw [hp] at h1
        simpa using h1
      · intro d hd
        simp only [Option.some.injEq] at hd
        subst hd
        exact List.mem_append.mpr (Or.inr (by simp))

/-- Enqueueing a fresh chunk preserves the transport invariant. -/
lemma inv_enqueue {s : TQ} (h : TQ.Inv s) : TQ.Inv s.enqueue := by
  obtain ⟨h1, h2, h3⟩ := h
  unfold TQ.enqueue
  apply inv_dispatch
  refine ⟨?_, h2, h3⟩
  show s.sentHistory ++ (s.pending ++ [s.nextId]) = List.range (s.nextId + 1)
  rw [← List.append_assoc, h1, List.range_succ]

/-- Invariance of the invariant under changing only transcript/log fields. -/
lemma inv_set_logs {s : TQ} (h : TQ.Inv s) (l : List LogTag) :
    TQ.Inv { s with logs := l } :=
  h

/-- Completion preserves the transport invariant. -/
lemma inv_complete {s : TQ} (o : Outcome) (h : TQ.Inv s) : TQ.Inv (TQ.complete o s) := by
  unfold TQ.complete
  by_cases hb : s.busy
  · rw [if_pos hb]
    apply inv_dispatch
    obtain ⟨h1, h2, h3⟩ := h
    refine ⟨h1, rfl, ?_⟩
    intro c hc
    simp at hc
  · rw [if_neg hb]
    exact h

/-- Flushing (with or without emission) preserves the transport invariant. -/
lemma inv_flushAndEnqueue {s : RecState} (h : TQ.Inv s.tq) :
    TQ.Inv (flushAndEnqueue s).tq := by
  unfold flushAndEnqueue
  rcases hfl : flushChunk s.chunker with ⟨c', w, tag⟩
  cases w with
  | none => exact inv_set_logs h _
  | some v => exact inv_enqueue (inv_set_logs h _)

/-- Every client step preserves the transport invariant. -/
lemma inv_step {s : RecState} (e : REv) (h : TQ.Inv s.tq) : TQ.Inv (step s e).tq := by
  cases e with
  | frame f =>
    simp only [step]
    by_cases hr : s.running = true
    · rw [if_pos hr]
      exact h
    · rw [if_neg hr]
      exact h
  | tick =>
    simp only [step]
    by_cases ht : s.timerOn = true
    · rw [if_pos ht]
      exact inv_flushAndEnqueue h
    · rw [if_neg ht]
      exact h
  | complete o => exact inv_complete o h
  | stop => exact inv_flushAndEnqueue (s := { s with running := false, timerOn := false }) h

/-- The transport invariant holds in every reachable client state. -/
lemma inv_run (sr : ℕ) (evs : List REv) : TQ.Inv (run sr evs).tq := by
  unfold run
  suffices hgen : ∀ (l : List REv) (s : RecState), TQ.Inv s.tq → TQ.Inv (l.foldl step s).tq by
    exact hgen evs (RecState.init sr) inv_init
  intro l
  induction l with
  | nil => exact fun s hs => hs
  | cons e l ih =>
    intro s hs
    exact ih (step s e) (inv_step e hs)

/-- Explicit description of completing the in-flight send: the outcome's log
line and transcript effect are recorded, the busy flag is cleared, and the
head of the pending queue (if any) is immediately dispatched. -/
lemma complete_eq (o : Outcome) (s : TQ) (hb : s.busy = true) :
    TQ.complete o s =
      match s.pending with
      | [] =>
        { s with busy := false, inFlight := none,
                 transcript := applyOutcome o s.transcript,
                 logs := addLog (outcomeTag o) s.logs }
      | hd :: tl =>
        { s with busy := true, inFlight := some hd, pending := tl,
                 sentHistory := s.sentHistory ++ [hd],
                 transcript := applyOutcome o s.transcript,
                 logs := addLog (outcomeTag o) s.logs } := by
  unfold TQ.complete TQ.dispatch
  rw [if_pos hb]
  cases hp : s.pending with
  | nil => simp [hp]
  | cons hd tl => simp [hp]

/-- In an invariant state, an in-flight chunk is never in the pending queue. -/
lemma inFlight_not_pending {s : TQ} (h : TQ.Inv s) {c : ℕ}
    (hc : s.inFlight = some c) : c ∉ s.pending := by
  obtain ⟨h1, _, h3⟩ := h
  have hsent : c ∈ s.sentHistory := h3 c hc
  have hnodup : (s.sentHistory ++ s.pending).Nodup := by
    rw [h1]
    exact List.nodup_range s.nextId
  have hdisj := List.disjoint_of_nodup_append hnodup
  exact fun hp => hdisj hsent hp

/-- Flushing always leaves an empty capture buffer and keeps the native
rate. -/
lemma flushChunk_state (c : Chunker) :
    (flushChunk c).1.pcmBuf = [] ∧ (flushChunk c).1.nativeSR = c.nativeSR := by
  unfold flushChunk
  by_cases h : c.pcmBuf = []
  · simp [h]
  · simp only [if_neg h]
    split <;> simp

/-- The log tag of a flush matches its emission: `DROP` when nothing is
emitted, `SEND` when a chunk is emitted. -/
lemma flushChunk_tag (c : Chunker) :
    ((flushChunk c).2.1 = none → (flushChunk c).2.2 = LogTag.DROP) ∧
    (∀ w, (flushChunk c).2.1 = some w → (flushChunk c).2.2 = LogTag.SEND) := by
  unfold flushChunk
  by_cases h : c.pcmBuf = []
  · simp [h]
  · simp only [if_neg h]
    split <;> simp

/-- Flushing touches only the chunker and the transport queue. -/
lemma flushAndEnqueue_fields (s : RecState) :
    (flushAndEnqueue s).running = s.running ∧
    (flushAndEnqueue s).timerOn = s.timerOn ∧
    (flushAndEnqueue s).released = s.released ∧
    (flushAndEnqueue s).chunker = (flushChunk s.chunker).1 := by
  unfold flushAndEnqueue
  rcases flushChunk s.chunker with ⟨c', w, tag⟩
  cases w <;> simp

/-- A flush that emits nothing only records a `DROP` log line. -/
lemma flushAndEnqueue_tq_none (s : RecState) (h : (flushChunk s.chunker).2.1 = none) :
    (flushAndEnqueue s).tq = { s.tq with logs := addLog LogTag.DROP s.tq.logs } := by
  have htag := (flushChunk_tag s.chunker).1 h
  unfold flushAndEnqueue
  rcases hfl : flushChunk s.chunker with ⟨c', w, tag⟩
  rw [hfl] at h htag
  simp only at h htag
  subst h
  subst htag
  rfl

/-- A flush that emits a chunk records a `SEND` log line and enqueues the
chunk. -/
lemma flushAndEnqueue_tq_some (s : RecState) (w : List ℕ)
    (h : (flushChunk s.chunker).2.1 = some w) :
    (flushAndEnqueue s).tq =
      TQ.enqueue { s.tq with logs := addLog LogTag.SEND s.tq.logs } := by
  have htag := (flushChunk_tag s.chunker).2 w h
  unfold flushAndEnqueue
  rcases hfl : flushChunk s.chunker with ⟨c', w', tag⟩
  rw [hfl] at h htag
  simp only at h htag
  subst h
  subst htag
  rfl

/-- Enqueueing onto a busy queue only appends to the pending FIFO. -/
lemma enqueue_busy (t : TQ) (hb : t.busy = true) :
    (TQ.enqueue t).busy = true ∧
    (TQ.enqueue t).pending = t.pending ++ [t.nextId] ∧
    (TQ.enqueue t).inFlight = t.inFlight ∧
    (TQ.enqueue t).sentHistory = t.sentHistory := by
  unfold TQ.enqueue TQ.dispatch
  simp [hb]

/-- A frame arriving while not running is discarded. -/
lemma step_frame_of_not_running {t : RecState} (h : t.running = false) (f : List ℚ) :
    step t (REv.frame f) = t := by
  simp only [step]
  rw [if_neg (by rw [h]; exact Bool.false_ne_true)]

/-- A tick without an installed timer does nothing. -/
lemma step_tick_of_no_timer {t : RecState} (h : t.timerOn = false) :
    step t REv.tick = t := by
  simp only [step]
  rw [if_neg (by rw [h]; exact Bool.false_ne_true)]

/-! ## Claims -/

/-- C5: resampling a buffer already at the target rate returns the input
unchanged, and resampling a buffer at twice the target rate yields
`(n + 1) / 2` samples, which is within 1 of half the input sample count. -/
theorem C5_resample_identity_and_halving (f32 : List ℚ) :
    resample f32 TARGET_SR = f32 ∧
    (resample f32 (2 * TARGET_SR)).length = (f32.length + 1) / 2 ∧
    f32.length / 2 ≤ (resample f32 (2 * TARGET_SR)).length ∧
    (resample f32 (2 * TARGET_SR)).length ≤ f32.length / 2 + 1 := by
  refine ⟨by simp [resample], resample_double_length f32, ?_, ?_⟩ <;>
    rw [resample_double_length f32] <;> omega

/-- C6: for a source rate different from the target rate, each output sample
`i` is the linear interpolation `src[idx] + frac * (src[idx+1] - src[idx])`
at source position `pos = i * (srcSR / TARGET_SR)`, `idx = ⌊pos⌋`,
`frac = pos - idx`, with out-of-range reads defaulting to 0. -/
theorem C6_resample_linear_interpolation (f32 : List ℚ) (srcSR : ℕ)
    (h : srcSR ≠ TARGET_SR) (i : ℕ) (hi : i < (resample f32 srcSR).length) :
    (resample f32 srcSR).getD i 0 =
      f32.getD (⌊(i : ℚ) * ((srcSR : ℚ) / (TARGET_SR : ℚ))⌋).toNat 0 +
        ((i : ℚ) * ((srcSR : ℚ) / (TARGET_SR : ℚ)) -
            ⌊(i : ℚ) * ((srcSR : ℚ) / (TARGET_SR : ℚ))⌋) *
          (f32.getD ((⌊(i : ℚ) * ((srcSR : ℚ) / (TARGET_SR : ℚ))⌋).toNat + 1) 0 -
            f32.getD (⌊(i : ℚ) * ((srcSR : ℚ) / (TARGET_SR : ℚ))⌋).toNat 0) := by
  simp only [resample, if_neg h] at hi ⊢
  rw [List.getD_eq_getElem _ _ hi, List.getElem_map, List.getElem_range]

/-- C6 witness: concrete evaluation at a 2-sample buffer resampled from
32000 Hz, output index 0. -/
theorem C6_witness :
    0 < (resample [0, 1] 32000).length ∧
    (resample [(0 : ℚ), 1] 32000).getD 0 0 =
      [(0 : ℚ), 1].getD (⌊(0 : ℚ) * ((32000 : ℚ) / (TARGET_SR : ℚ))⌋).toNat 0 +
        ((0 : ℚ) * ((32000 : ℚ) / (TARGET_SR : ℚ)) -
            ⌊(0 : ℚ) * ((32000 : ℚ) / (TARGET_SR : ℚ))⌋) *
          ([(0 : ℚ), 1].getD ((⌊(0 : ℚ) * ((32000 : ℚ) / (TARGET_SR : ℚ))⌋).toNat + 1) 0 -
            [(0 : ℚ), 1].getD (⌊(0 : ℚ) * ((32000 : ℚ) / (TARGET_SR : ℚ))⌋).toNat 0) := by
  have hlen : 0 < (resample [(0 : ℚ), 1] 32000).length := by
    rw [show (32000 : ℕ) = 2 * TARGET_SR from rfl, resample_double_length]
    decide
  exact ⟨hlen, C6_resample_linear_interpolation [0, 1] 32000 (by decide) 0 hlen⟩

/-- C7 counterexample: the WAV container for one sample is 46 bytes, not
`2 * 1` bytes — the container's byte length is not `2 * n`. -/
theorem C7_counterexample :
    ¬ ((toWav [(0 : ℚ)] TARGET_SR).length = 2 * ([(0 : ℚ)] : List ℚ).length) := by
  rw [toWav_length]
  decide

/-- C7 (amended): the container's total byte length is `44 + 2 * n` (a
44-byte RIFF/WAVE header plus 2 bytes per sample); the PCM data payload after
the header is exactly `2 * n` bytes. -/
theorem C7_wav_byte_length (f32 : List ℚ) (sr : ℕ) :
    (toWav f32 sr).length = 44 + 2 * f32.length ∧
    ((toWav f32 sr).drop 44).length = 2 * f32.length := by
  refine ⟨toWav_length f32 sr, ?_⟩
  rw [List.length_drop, toWav_length]
  omega

/-- C10: every encoded 16-bit sample value lies in `[-32768, 32767]`; the
sample is clamped to `[-1, 1]` before scaling, so inputs at or beyond 1
saturate to 32767 and inputs at or beyond -1 saturate to -32768 — never
wrapping around. -/
theorem C10_sample_saturation (x : ℚ) :
    -32768 ≤ sampleToInt16 x ∧ sampleToInt16 x ≤ 32767 ∧
    sampleToInt16 x = sampleToInt16 (max (-1) (min 1 x)) ∧
    (1 ≤ x → sampleToInt16 x = 32767) ∧
    (x ≤ -1 → sampleToInt16 x = -32768) := by
  refine ⟨(sampleToInt16_bounds x).1, (sampleToInt16_bounds x).2, ?_, ?_, ?_⟩
  · unfold sampleToInt16
    have h1 : max (-1) (min 1 (max (-1) (min 1 x))) = max (-1) (min 1 x) := by
      have ha : (-1 : ℚ) ≤ max (-1) (min 1 x) := le_max_left _ _
      have hb : max (-1) (min 1 x) ≤ 1 := max_le (by norm_num) (min_le_left _ _)
      rw [min_eq_right hb, max_eq_right ha]
    rw [h1]
  · intro hx
    have h1 : min 1 x = 1 := min_eq_left hx
    unfold sampleToInt16
    rw [h1, max_eq_right (by norm_num : (-1 : ℚ) ≤ 1),
      if_neg (by norm_num : ¬ (1 : ℚ) < 0),
      show (1 : ℚ) * 32767 = ((32767 : ℤ) : ℚ) by norm_num,
      jsTrunc_of_nonneg (by norm_num), Int.floor_intCast]
  · intro hx
    have h1 : min 1 x = x := min_eq_right (by linarith)
    unfold sampleToInt16
    rw [h1, max_eq_left hx, if_pos (by norm_num : (-1 : ℚ) < 0),
      show (-1 : ℚ) * 32768 = ((-32768 : ℤ) : ℚ) by norm_num,
      jsTrunc_of_neg (by norm_num), Int.ceil_intCast]

/-- C10 witness: an input of 2 saturates high and an input of -2 saturates
low. -/
theorem C10_witness :
    sampleToInt16 2 = 32767 ∧ sampleToInt16 (-2) = -32768 :=
  ⟨(C10_sample_saturation 2).2.2.2.1 (by norm_num),
   (C10_sample_saturation (-2)).2.2.2.2 (by norm_num)⟩

/-- C2: when the capture buffer is empty nothing is emitted; when the merged
buffer's RMS energy is below the 0.004 silence threshold nothing is emitted
(so it is never enqueued for transmission); otherwise the buffer is emitted
as exactly one encoded chunk. -/
theorem C2_silence_filtering (c : Chunker) :
    (c.pcmBuf = [] → (flushChunk c).2.1 = none) ∧
    (c.pcmBuf ≠ [] →
      Real.sqrt ((sumSq c.pcmBuf.flatten : ℝ) / (c.pcmBuf.flatten.length : ℝ)) < 4 / 1000 →
      (flushChunk c).2.1 = none) ∧
    (c.pcmBuf ≠ [] →
      ¬ Real.sqrt ((sumSq c.pcmBuf.flatten : ℝ) / (c.pcmBuf.flatten.length : ℝ)) < 4 / 1000 →
      (flushChunk c).2.1 = some (toWav (resample c.pcmBuf.flatten c.nativeSR) TARGET_SR)) ∧
    (∀ s : RecState, s.chunker = c → (flushChunk c).2.1 = none →
      (flushAndEnqueue s).tq.pending = s.tq.pending ∧
      (flushAndEnqueue s).tq.sentHistory = s.tq.sentHistory ∧
      (flushAndEnqueue s).tq.nextId = s.tq.nextId) := by
  refine ⟨?_, ?_, ?_, ?_⟩
  · intro hb
    unfold flushChunk
    rw [if_pos hb]
  · intro hb hs
    unfold flushChunk
    rw [if_neg hb, if_pos ((isSilence_iff_sqrt _).mpr hs)]
  · intro hb hs
    unfold flushChunk
    rw [if_neg hb, if_neg (fun h => hs ((isSilence_iff_sqrt _).mp h))]
  · intro s hsc hnone
    subst hsc
    unfold flushAndEnqueue
    rcases hfl : flushChunk s.chunker with ⟨c', w, tag⟩
    rw [hfl] at hnone
    simp only at hnone
    subst hnone
    simp [hfl]

/-- C2 witness: a one-frame loud buffer passes the silence gate and is
emitted as one chunk; the silence bound is discharged concretely. -/
theorem C2_witness :
    (flushChunk ⟨[[(1 : ℚ)]], TARGET_SR⟩).2.1 =
      some (toWav (resample ([[(1 : ℚ)]] : List (List ℚ)).flatten TARGET_SR) TARGET_SR) := by
  have hfalse : isSilence (([[(1 : ℚ)]] : List (List ℚ)).flatten) = false := by
    show isSilence [(1 : ℚ)] = false
    norm_num [isSilence, SILENCE, rmsSq, sumSq]
  have hns : ¬ Real.sqrt ((sumSq ([[(1 : ℚ)]] : List (List ℚ)).flatten : ℝ) /
      (([[(1 : ℚ)]] : List (List ℚ)).flatten.length : ℝ)) < 4 / 1000 := by
    intro h
    have hsil := (isSilence_iff_sqrt (([[(1 : ℚ)]] : List (List ℚ)).flatten)).mpr h
    rw [hfalse] at hsil
    exact Bool.false_ne_true hsil
  exact (C2_silence_filtering ⟨[[(1 : ℚ)]], TARGET_SR⟩).2.2.1 (by decide) hns

/-- C3: on a reachable running transcript, a terminal result's text is
trimmed; an empty trimmed text leaves the transcript unchanged (and is only
logged as a `WARN` diagnostic), and a non-empty trimmed text is appended with
exactly one separating space unless the transcript is empty or already ends
in whitespace. -/
theorem C3_aggregator_append (raws : List (List Char)) (raw : List Char) :
    (jsTrim raw = [] →
      appendResult (raws.foldl appendResult []) raw = raws.foldl appendResult []) ∧
    (jsTrim raw ≠ [] →
      appendResult (raws.foldl appendResult []) raw =
        (if raws.foldl appendResult [] = [] ∨
            lastIsWhitespace (raws.foldl appendResult []) = true then
          raws.foldl appendResult [] ++ jsTrim raw
        else raws.foldl appendResult [] ++ ' ' :: jsTrim raw)) ∧
    (∀ s : TQ, s.busy = true → jsTrim raw = [] →
      (TQ.complete (Outcome.result raw) s).transcript = s.transcript ∧
      (TQ.complete (Outcome.result raw) s).logs = addLog LogTag.WARN s.logs) := by
  refine ⟨?_, ?_, ?_⟩
  · intro ht
    unfold appendResult
    rw [if_pos ht]
  · intro ht
    rcases transcript_last_inv raws with hnil | hws
    · rw [hnil]
      unfold appendResult
      rw [if_neg ht]
      simp
    · rcases eq_or_ne (raws.foldl appendResult []) [] with hnil | hne
      · rw [hnil]
        unfold appendResult
        rw [if_neg ht]
        simp
      · have hcond : ¬ (raws.foldl appendResult [] = [] ∨
            lastIsWhitespace (raws.foldl appendResult []) = true) := by
          rw [hws]
          simp [hne]
        rw [if_neg hcond]
        unfold appendResult
        rw [if_neg ht, if_pos ⟨hne, endsWithSpace_of_not_ws hws⟩]
        simp
  · intro s hb ht
    unfold TQ.complete
    rw [if_pos hb]
    have hd := dispatch_transcript_logs
      { s with busy := false, inFlight := none,
               transcript := applyOutcome (Outcome.result raw) s.transcript,
               logs := addLog (outcomeTag (Outcome.result raw)) s.logs }
    rw [hd.1, hd.2]
    constructor
    · simp [applyOutcome, appendResult, ht]
    · simp [outcomeTag, ht]

/-- C3 witness: appending a result to the transcript reached from one
non-empty result inserts exactly one space. -/
theorem C3_witness :
    appendResult ([[ 'h', 'i' ]].foldl appendResult []) [' ', 'a'] =
      ([[ 'h', 'i' ]].foldl appendResult []) ++ ' ' :: jsTrim [' ', 'a'] := by
  have h := (C3_aggregator_append [[ 'h', 'i' ]] [' ', 'a']).2.1 (by decide)
  rw [h, if_neg (by decide)]

/-- C1: in every reachable client state, the dispatch history followed by the
pending queue equals the chunk-creation order (sends are strict FIFO and a
chunk waits while a prior send is outstanding), the busy flag is set exactly
while one send is in flight, and completing the in-flight send clears the
busy flag and immediately dispatches the next pending chunk, if any. -/
theorem C1_transport_sequencing (sr : ℕ) (evs : List REv) (o : Outcome) :
    (run sr evs).tq.sentHistory ++ (run sr evs).tq.pending =
      List.range (run sr evs).tq.nextId ∧
    (run sr evs).tq.busy = (run sr evs).tq.inFlight.isSome ∧
    ((run sr evs).tq.busy = true → (run sr evs).tq.pending = [] →
      (step (run sr evs) (REv.complete o)).tq.busy = false ∧
      (step (run sr evs) (REv.complete o)).tq.inFlight = none) ∧
    (∀ hd tl, (run sr evs).tq.busy = true → (run sr evs).tq.pending = hd :: tl →
      (step (run sr evs) (REv.complete o)).tq.busy = true ∧
      (step (run sr evs) (REv.complete o)).tq.inFlight = some hd ∧
      (step (run sr evs) (REv.complete o)).tq.pending = tl ∧
      (step (run sr evs) (REv.complete o)).tq.sentHistory =
        (run sr evs).tq.sentHistory ++ [hd]) := by
  obtain ⟨h1, h2, h3⟩ := inv_run sr evs
  have hstep : (step (run sr evs) (REv.complete o)).tq =
      TQ.complete o (run sr evs).tq := rfl
  refine ⟨h1, h2, ?_, ?_⟩
  · intro hb hp
    have hc := complete_eq o (run sr evs).tq hb
    rw [hp] at hc
    simp only at hc
    rw [hstep, hc]
    exact ⟨rfl, rfl⟩
  · intro hd tl hb hp
    have hc := complete_eq o (run sr evs).tq hb
    rw [hp] at hc
    simp only at hc
    rw [hstep, hc]
    exact ⟨rfl, rfl, rfl, rfl⟩

/-- C8: when the in-flight chunk's exchange ends in a server error message or
a transport failure, the transcript is unchanged, the failed chunk is neither
re-enqueued nor re-sent, the recording state is untouched, and the next
pending chunk (if any) is dispatched immediately. -/
theorem C8_chunk_error_independence (sr : ℕ) (evs : List REv) (c : ℕ) (o : Outcome)
    (ho : o = Outcome.errorMsg ∨ o = Outcome.wsfail)
    (hc : (run sr evs).tq.inFlight = some c) :
    (step (run sr evs) (REv.complete o)).tq.transcript = (run sr evs).tq.transcript ∧
    (step (run sr evs) (REv.complete o)).tq.sentHistory.count c =
      (run sr evs).tq.sentHistory.count c ∧
    c ∉ (step (run sr evs) (REv.complete o)).tq.pending ∧
    (step (run sr evs) (REv.complete o)).tq.inFlight ≠ some c ∧
    (step (run sr evs) (REv.complete o)).running = (run sr evs).running ∧
    (step (run sr evs) (REv.complete o)).timerOn = (run sr evs).timerOn ∧
    (step (run sr evs) (REv.complete o)).chunker = (run sr evs).chunker ∧
    (∀ hd tl, (run sr evs).tq.pending = hd :: tl →
      (step (run sr evs) (REv.complete o)).tq.busy = true ∧
      (step (run sr evs) (REv.complete o)).tq.inFlight = some hd) := by
  have hinv := inv_run sr evs
  have hb : (run sr evs).tq.busy = true := by
    rw [hinv.2.1, hc]
    rfl
  have hnp : c ∉ (run sr evs).tq.pending := inFlight_not_pending hinv hc
  have happly : applyOutcome o (run sr evs).tq.transcript = (run sr evs).tq.transcript := by
    rcases ho with h | h <;> subst h <;> rfl
  have hstep : (step (run sr evs) (REv.complete o)).tq =
      TQ.complete o (run sr evs).tq := rfl
  have hcomp := complete_eq o (run sr evs).tq hb
  cases hp : (run sr evs).tq.pending with
  | nil =>
    rw [hp] at hcomp
    simp only at hcomp
    refine ⟨?_, ?_, ?_, ?_, rfl, rfl, rfl, ?_⟩
    · rw [hstep, hcomp]
      exact happly
    · rw [hstep, hcomp]
    · rw [hstep, hcomp]
      simp
    · rw [hstep, hcomp]
      simp
    · intro hd tl h'
      exact absurd h'.symm (List.cons_ne_nil hd tl)
  | cons hd tl =>
    have hd_mem : hd ∈ (run sr evs).tq.pending := by
      rw [hp]
      exact List.mem_cons_self hd tl
    have hd_ne : hd ≠ c := fun h => hnp (h ▸ hd_mem)
    rw [hp] at hcomp
    simp only at hcomp
    refine ⟨?_, ?_, ?_, ?_, rfl, rfl, rfl, ?_⟩
    · rw [hstep, hcomp]
      exact happly
    · rw [hstep, hcomp]
      show ((run sr evs).tq.sentHistory ++ [hd]).count c =
        (run sr evs).tq.sentHistory.count c
      rw [List.count_append,
        List.count_eq_zero.mpr (by simp [Ne.symm hd_ne] : c ∉ [hd])]
      omega
    · rw [hstep, hcomp]
      show c ∉ tl
      exact fun h => hnp (by rw [hp]; exact List.mem_cons_of_mem _ h)
    · rw [hstep, hcomp]
      simp only [ne_eq, Option.some.injEq]
      exact hd_ne
    · intro hd' tl' h'
      injection h' with h1 h2
      subst h1
      subst h2
      exact ⟨by rw [hstep, hcomp], by rw [hstep, hcomp]⟩

/-- C9: stopping a recording clears the running flag and the flush timer (so
subsequent frames and ticks are ignored), leaves an empty capture buffer,
performs exactly one final flush through the same empty/silence check as a
normal tick (a `DROP` log line and an untouched queue when nothing survives
the check, a `SEND` log line and one enqueued chunk otherwise), and releases
capture resources unconditionally — even while a send is still in flight. -/
theorem C9_stop_semantics (s : RecState) :
    (step s REv.stop).running = false ∧
    (step s REv.stop).timerOn = false ∧
    (step s REv.stop).chunker.pcmBuf = [] ∧
    (∀ f, step (step s REv.stop) (REv.frame f) = step s REv.stop) ∧
    (step (step s REv.stop) REv.tick = step s REv.stop) ∧
    ((flushChunk s.chunker).2.1 = none →
      (step s REv.stop).tq = { s.tq with logs := addLog LogTag.DROP s.tq.logs }) ∧
    (∀ w, (flushChunk s.chunker).2.1 = some w →
      (step s REv.stop).tq =
        TQ.enqueue { s.tq with logs := addLog LogTag.SEND s.tq.logs }) ∧
    (step s REv.stop).released = true ∧
    (s.tq.busy = true → (step s REv.stop).tq.busy = true) := by
  have hstop : step s REv.stop =
      { flushAndEnqueue { s with running := false, timerOn := false } with
        released := true } := rfl
  have hfields := flushAndEnqueue_fields { s with running := false, timerOn := false }
  have hrunning : (step s REv.stop).running = false := hfields.1
  have htimer : (step s REv.stop).timerOn = false := hfields.2.1
  refine ⟨hrunning, htimer, ?_, ?_, ?_, ?_, ?_, ?_, ?_⟩
  · show (flushAndEnqueue { s with running := false, timerOn := false }).chunker.pcmBuf = []
    rw [hfields.2.2.2]
    exact (flushChunk_state _).1
  · intro f
    exact step_frame_of_not_running hrunning f
  · exact step_tick_of_no_timer htimer
  · intro hnone
    rw [hstop]
    show (flushAndEnqueue { s with running := false, timerOn := false }).tq = _
    exact flushAndEnqueue_tq_none _ hnone
  · intro w hsome
    rw [hstop]
    show (flushAndEnqueue { s with running := false, timerOn := false }).tq = _
    exact flushAndEnqueue_tq_some _ w hsome
  · rw [hstop]
  · intro hb
    rw [hstop]
    show (flushAndEnqueue { s with running := false, timerOn := false }).tq.busy = true
    rcases hw : (flushChunk ({ s with running := false, timerOn := false } :
        RecState).chunker).2.1 with _ | w
    · rw [flushAndEnqueue_tq_none _ hw]
      exact hb
    · rw [flushAndEnqueue_tq_some _ w hw]
      exact (enqueue_busy { s.tq with logs := addLog LogTag.SEND s.tq.logs } hb).1

/-- C4: every payload the client builds carries a speaker count that respects
the per-engine floor `NB_MIN` (1 for the local engines, 0 for the cloud
engine); a speaker count of 0 satisfies the cloud engine's floor. -/
theorem C4_speaker_count_floor (evs : List CEv) (b64 : String) :
    NB_MIN (buildPayload (crun evs) b64).engine ≤
      (buildPayload (crun evs) b64).nb_locuteurs ∧
    NB_MIN Engine.gladia = 0 ∧ NB_MIN Engine.vosk = 1 ∧ NB_MIN Engine.whisper = 1 ∧
    NB_MIN Engine.gladia ≤ 0 := by
  have hfields : (buildPayload (crun evs) b64).engine = (crun evs).engine ∧
      (buildPayload (crun evs) b64).nb_locuteurs = (crun evs).nbLocuteurs := by
    cases h : (crun evs).engine <;> simp [buildPayload, h]
  have hnb : 1 ≤ (crun evs).nbLocuteurs := by
    unfold crun
    suffices hgen : ∀ (l : List CEv) (c : ConfigState), 1 ≤ c.nbLocuteurs →
        1 ≤ (l.foldl cstep c).nbLocuteurs by
      exact hgen evs ConfigState.init (by norm_num [ConfigState.init])
    intro l
    induction l with
    | nil => exact fun c hc => hc
    | cons e l ih =>
      intro c hc
      refine ih (cstep c e) ?_
      cases e with
      | selectEngine e' =>
        show 1 ≤ (adjustGladia { c with engine := e' }).nbLocuteurs
        unfold adjustGladia
        split <;> simp_all
      | selectNb1 =>
        show 1 ≤ (if c.engine = Engine.gladia then c
          else { c with nbLocuteurs := 1 }).nbLocuteurs
        split <;> simp_all
      | selectNb2 =>
        show (1 : ℕ) ≤ 2
        norm_num
  refine ⟨?_, rfl, rfl, rfl, le_refl 0⟩
  rw [hfields.1, hfields.2]
  calc NB_MIN (crun evs).engine ≤ 1 := by cases (crun evs).engine <;> simp [NB_MIN]
    _ ≤ (crun evs).nbLocuteurs := hnb

/-- Concrete evaluation of a flush of one loud one-sample frame. -/
lemma flushChunk_one (sr' : ℕ) :
    flushChunk ⟨[[(1 : ℚ)]], sr'⟩ =
      (⟨[], sr'⟩, some (toWav (resample [(1 : ℚ)] sr') TARGET_SR), LogTag.SEND) := by
  have hs : isSilence [(1 : ℚ)] = false := by
    norm_num [isSilence, rmsSq, sumSq, SILENCE]
  simp [flushChunk, List.flatten_cons, List.flatten_nil, hs]

/-- Concrete client state after capturing one loud frame. -/
lemma run_one_frame :
    run TARGET_SR [REv.frame [1]] =
      { running := true, timerOn := true, chunker := ⟨[[(1 : ℚ)]], TARGET_SR⟩,
        tq := TQ.init, released := false } := rfl

/-- Concrete client state after two captured frames and two flush ticks: the
first chunk is in flight, the second is pending. -/
lemma run_two_chunks :
    run TARGET_SR [REv.frame [1], REv.tick, REv.frame [1], REv.tick] =
      { running := true, timerOn := true, chunker := ⟨[], TARGET_SR⟩,
        tq := { nextId := 2, pending := [1], busy := true, inFlight := some 0,
                sentHistory := [0], transcript := [],
                logs := [LogTag.SEND, LogTag.SEND] },
        released := false } := by
  have hfc := flushChunk_one TARGET_SR
  simp [run, RecState.init, step, flushAndEnqueue, hfc, TQ.enqueue, TQ.dispatch,
    TQ.init, addLog]

/-- C1 witness: with the first chunk in flight and the second pending,
completing the in-flight send immediately dispatches chunk 1 in FIFO order. -/
theorem C1_witness :
    (step (run TARGET_SR [REv.frame [1], REv.tick, REv.frame [1], REv.tick])
        (REv.complete Outcome.errorMsg)).tq.busy = true ∧
    (step (run TARGET_SR [REv.frame [1], REv.tick, REv.frame [1], REv.tick])
        (REv.complete Outcome.errorMsg)).tq.inFlight = some 1 ∧
    (step (run TARGET_SR [REv.frame [1], REv.tick, REv.frame [1], REv.tick])
        (REv.complete Outcome.errorMsg)).tq.pending = [] ∧
    (step (run TARGET_SR [REv.frame [1], REv.tick, REv.frame [1], REv.tick])
        (REv.complete Outcome.errorMsg)).tq.sentHistory =
      (run TARGET_SR [REv.frame [1], REv.tick, REv.frame [1], REv.tick]).tq.sentHistory
        ++ [1] :=
  (C1_transport_sequencing TARGET_SR [REv.frame [1], REv.tick, REv.frame [1], REv.tick]
    Outcome.errorMsg).2.2.2 1 [] (by rw [run_two_chunks]) (by rw [run_two_chunks])

/-- C8 witness: a server-error reply for the in-flight chunk 0 leaves the
transcript unchanged and chunk 0 is not re-enqueued. -/
theorem C8_witness :
    (step (run TARGET_SR [REv.frame [1], REv.tick, REv.frame [1], REv.tick])
        (REv.complete Outcome.errorMsg)).tq.transcript =
      (run TARGET_SR [REv.frame [1], REv.tick, REv.frame [1], REv.tick]).tq.transcript ∧
    0 ∉ (step (run TARGET_SR [REv.frame [1], REv.tick, REv.frame [1], REv.tick])
        (REv.complete Outcome.errorMsg)).tq.pending := by
  have h := C8_chunk_error_independence TARGET_SR
    [REv.frame [1], REv.tick, REv.frame [1], REv.tick] 0 Outcome.errorMsg
    (Or.inl rfl) (by rw [run_two_chunks])
  exact ⟨h.1, h.2.2.1⟩

/-- C9 witness: stopping after one captured loud frame flushes and enqueues
that final chunk, and capture resources are released. -/
theorem C9_witness :
    (step (run TARGET_SR [REv.frame [1]]) REv.stop).tq =
      TQ.enqueue { (run TARGET_SR [REv.frame [1]]).tq with
                   logs := addLog LogTag.SEND (run TARGET_SR [REv.frame [1]]).tq.logs } ∧
    (step (run TARGET_SR [REv.frame [1]]) REv.stop).released = true := by
  refine ⟨?_, (C9_stop_semantics (run TARGET_SR [REv.frame [1]])).2.2.2.2.2.2.2.1⟩
  exact (C9_stop_semantics (run TARGET_SR [REv.frame [1]])).2.2.2.2.2.2.1
    (toWav (resample [(1 : ℚ)] TARGET_SR) TARGET_SR)
    (by rw [run_one_frame, flushChunk_one])

end SpeechCore
